import Mathlib

/-!
Verification of the streaming UTF-8 decoder (src/__init__.py).

The decoder is embedded shallowly: the byte supplier becomes a `List Nat` of
the bytes not yet read, mutation of `self` becomes explicit state passing, and
every exception becomes a constructor of an explicit result type
(`StopIteration` becomes `stop`, `InvalidUTF8Encoding` becomes
`invalidUTF8Encoding`, the two `AssertionError` sites become
`stuffAssertErr` / `classifyAssertErr`).  The re-entrant call `next(self)`
performed by `error()` under the IGNORE policy is modelled with a fuel
parameter plus the theorem (claim C10) that fuel `size d + 1` never runs out,
where `size` counts the bytes still buffered or unread.
-/

/-- Source constant `REPLACEMENT_CHAR` (line 10).  The source stores the
character U+FFFD; the model works with codepoints throughout, so it is kept as
the number 0xFFFD. -/
def REPLACEMENT_CHAR : Nat := 0xfffd

/-- Source constant `STRICT` (line 11). -/
def STRICT : Nat := 0

/-- Source constant `REPLACE` (line 11). -/
def REPLACE : Nat := 1

/-- Source constant `IGNORE` (line 11). -/
def IGNORE : Nat := 2

/-- Source constant `MAX_CODEPOINT` (line 12). -/
def MAX_CODEPOINT : Nat := 0x10ffff

/-- State of a `UTF8Decoder` instance (lines 30-37).  `stream` holds the bytes
the supplier has not yet yielded.  The `first_read` flag and its bytes-type
assertion (lines 60-64) are not modelled: streams are byte lists by
construction. -/
structure UTF8Decoder where
  stream : List Nat
  errors : Nat
  disallow_nonchars : Bool
  byte_num : Nat
  num_pending_replacement : Nat
  stuffed_byte : Option Nat
deriving DecidableEq, Repr

/-- Constructor `__init__` (lines 30-37): `byte_num = 0`, no pending
replacements, empty lookahead. -/
def mkDecoder (stream : List Nat) (errors : Nat) (disallow_nonchars : Bool) :
    UTF8Decoder :=
  { stream := stream, errors := errors, disallow_nonchars := disallow_nonchars,
    byte_num := 0, num_pending_replacement := 0, stuffed_byte := none }

/-- `stuff_byte` (lines 42-47): `none` models the `AssertionError` raised when
a byte is already stuffed. -/
def UTF8Decoder.stuff_byte (d : UTF8Decoder) (b : Nat) : Option UTF8Decoder :=
  if d.stuffed_byte.isSome then none
  else some { d with stuffed_byte := some b }

/-- Result of `read_one`: a byte plus the successor state, or `StopIteration`.
The source increments `byte_num` even on the read that discovers exhaustion,
so the `stop` payload carries that incremented state. -/
inductive ReadOneResult where
  | ok (b : Nat) (d : UTF8Decoder)
  | stop (d : UTF8Decoder)
deriving DecidableEq, Repr

/-- `read_one` (lines 49-68): pop the stuffed byte if present, else read one
byte from the stream, incrementing `byte_num` (also when the stream turns out
to be exhausted, since the source increments before testing for `b''`). -/
def UTF8Decoder.read_one (d : UTF8Decoder) : ReadOneResult :=
  match d.stuffed_byte with
  | some b => .ok b { d with stuffed_byte := none }
  | none =>
    match d.stream with
    | [] => .stop { d with byte_num := d.byte_num + 1 }
    | b :: rest => .ok b { d with stream := rest, byte_num := d.byte_num + 1 }

/-- Result of the continuation-byte loop (lines 134-153): the accumulated
codepoint, or the `self.error(n)` call it would perform, or the
`AssertionError` of `stuff_byte`. -/
inductive ContResult where
  | ok (codepoint : Nat) (d : UTF8Decoder)
  | err (num_consumed_bytes : Nat) (d : UTF8Decoder)
  | assertErr
deriving DecidableEq, Repr

/-- The `while bytes_remaining` loop (lines 134-153), recursing on
`bytes_remaining`.  The shift in the source is `(bytes_remaining - 1) * 6`
with `bytes_remaining` the pre-decrement value, so with the current value
written `bytes_remaining + 1` the shift is `bytes_remaining * 6`, and
`num_bytes - bytes_remaining` of the source is
`num_bytes - (bytes_remaining + 1)` here. -/
def UTF8Decoder.read_continuations (num_bytes : Nat) :
    Nat → Nat → UTF8Decoder → ContResult
  | 0, codepoint, d => .ok codepoint d
  | bytes_remaining + 1, codepoint, d =>
    match d.read_one with
    | .stop d1 => .err (num_bytes - (bytes_remaining + 1)) d1
    | .ok byte d1 =>
      if byte &&& 0b11000000 ≠ 0b10000000 then
        match d1.stuff_byte byte with
        | none => .assertErr
        | some d2 => .err (num_bytes - (bytes_remaining + 1) + 1) d2
      else
        let codepoint1 := codepoint ||| ((byte &&& 0b00111111) <<< (bytes_remaining * 6))
        if 4 ≤ num_bytes ∧ MAX_CODEPOINT < codepoint1 then
          .err (num_bytes - (bytes_remaining + 1) + 1) d1
        else
          UTF8Decoder.read_continuations num_bytes bytes_remaining codepoint1 d1

/-- Result of `__next__` before the `error()` policy dispatch: a decoded
codepoint (`chr`), `StopIteration` on a clean end of stream, an error together
with the consumed-byte count that would be passed to `self.error(...)`, or one
of the two `AssertionError` sites (line 46 via `stuff_byte`, line 123 in the
classifier). -/
inductive RawResult where
  | chr (codepoint : Nat) (d : UTF8Decoder)
  | stop (d : UTF8Decoder)
  | err (num_consumed_bytes : Nat) (d : UTF8Decoder)
  | stuffAssertErr
  | classifyAssertErr
deriving DecidableEq, Repr

/-- The post-loop validation of `__next__` (lines 155-179): overlong check,
leading-byte/value cross-check, optional noncharacter check, then success. -/
def UTF8Decoder.finish (num_bytes leading_byte codepoint : Nat)
    (d : UTF8Decoder) : RawResult :=
  if num_bytes = 2 ∧ codepoint < 0x80
      ∨ num_bytes = 3 ∧ codepoint < 0x800
      ∨ num_bytes = 4 ∧ codepoint < 0x10000
      ∨ num_bytes = 5 ∧ codepoint < 0x200000
      ∨ num_bytes = 6 ∧ codepoint < 0x4000000 then
    .err num_bytes d
  else if leading_byte = 0xe0 ∧ codepoint < 0x0800
      ∨ leading_byte = 0xf0 ∧ codepoint < 0x10000 then
    .err num_bytes d
  else if d.disallow_nonchars
      ∧ (0xfffe ≤ codepoint ∨ 0xfdd0 ≤ codepoint ∧ codepoint ≤ 0xfdef) then
    .err 1 d
  else
    .chr codepoint d

/-- The multi-byte tail of `__next__` (lines 125-179): the 0xED reserved
leading byte check, the continuation loop, then `finish`. -/
def UTF8Decoder.next_seq (num_bytes leading_byte codepoint : Nat)
    (d : UTF8Decoder) : RawResult :=
  if leading_byte = 0xed then .err 1 d
  else
    match UTF8Decoder.read_continuations num_bytes (num_bytes - 1) codepoint d with
    | .assertErr => .stuffAssertErr
    | .err n d1 => .err n d1
    | .ok codepoint1 d1 => UTF8Decoder.finish num_bytes leading_byte codepoint1 d1

/-- `__next__` up to (but not including) the `error()` dispatch
(lines 85-179, without the pending-replacement step): read the leading byte,
classify it by its high bits, and run the sequence decoder. -/
def UTF8Decoder.next_raw (d : UTF8Decoder) : RawResult :=
  match d.read_one with
  | .stop d1 => .stop d1
  | .ok leading_byte d1 =>
    if leading_byte &&& 0b10000000 = 0 then
      .chr leading_byte d1
    else if leading_byte &&& 0b11100000 = 0b11000000 then
      UTF8Decoder.next_seq 2 leading_byte ((leading_byte &&& 0b00011111) <<< 6) d1
    else if leading_byte &&& 0b11110000 = 0b11100000 then
      UTF8Decoder.next_seq 3 leading_byte ((leading_byte &&& 0b00001111) <<< 12) d1
    else if leading_byte &&& 0b11111000 = 0b11110000 then
      UTF8Decoder.next_seq 4 leading_byte ((leading_byte &&& 0b00000111) <<< 18) d1
    else if leading_byte &&& 0b11111100 = 0b11111000 then
      UTF8Decoder.next_seq 5 leading_byte ((leading_byte &&& 0b00000011) <<< 24) d1
    else if leading_byte &&& 0b11111110 = 0b11111100 then
      UTF8Decoder.next_seq 6 leading_byte ((leading_byte &&& 0b00000001) <<< 30) d1
    else if leading_byte &&& 0b11000000 = 0b10000000 then
      .err 1 d1
    else if 0xfe ≤ leading_byte then
      .err 1 d1
    else
      .classifyAssertErr

/-- Observable outcome of one `next(decoder)` call. `invalidUTF8Encoding`
carries the `byte_num` stored in the raised exception (line 83); the source
gives no guarantee about the instance state afterwards, so no state is
carried.  `outOfFuel` is an artefact of modelling the IGNORE-policy
re-entrancy with fuel; claim C10 proves it unreachable with fuel
`size d + 1`. -/
inductive NextResult where
  | chr (codepoint : Nat) (d : UTF8Decoder)
  | stop (d : UTF8Decoder)
  | invalidUTF8Encoding (byte_num : Nat)
  | stuffAssertErr
  | classifyAssertErr
  | outOfFuel
deriving DecidableEq, Repr

/-- `__next__` (lines 85-179) including the pending-replacement fast path
(lines 89-91) and the `error()` dispatch (lines 70-83), with `error()` inlined
at its unique call shape: REPLACE adds `n - 1` pending replacements and
returns one replacement character, IGNORE re-enters `next` (consuming fuel),
anything else behaves as STRICT and raises `InvalidUTF8Encoding(byte_num)`. -/
def UTF8Decoder.next_fuel : Nat → UTF8Decoder → NextResult
  | 0, _ => .outOfFuel
  | fuel + 1, d =>
    if 0 < d.num_pending_replacement then
      .chr REPLACEMENT_CHAR
        { d with num_pending_replacement := d.num_pending_replacement - 1 }
    else
      match d.next_raw with
      | .chr c d1 => .chr c d1
      | .stop d1 => .stop d1
      | .stuffAssertErr => .stuffAssertErr
      | .classifyAssertErr => .classifyAssertErr
      | .err num_consumed_bytes d1 =>
        if d1.errors = REPLACE then
          .chr REPLACEMENT_CHAR
            { d1 with num_pending_replacement :=
                d1.num_pending_replacement + (num_consumed_bytes - 1) }
        else if d1.errors = IGNORE then
          UTF8Decoder.next_fuel fuel d1
        else
          .invalidUTF8Encoding d1.byte_num

/-- Number of bytes the decoder can still pull without hitting end of stream:
the unread stream bytes plus the stuffed byte if present.  Each IGNORE retry
strictly decreases it, so `size d + 1` is enough fuel for `next_fuel`. -/
def UTF8Decoder.size (d : UTF8Decoder) : Nat :=
  d.stream.length + (if d.stuffed_byte.isSome then 1 else 0)

/-- One call of `next(decoder)`: `next_fuel` with the provably sufficient fuel
`size d + 1`. -/
def UTF8Decoder.next (d : UTF8Decoder) : NextResult :=
  UTF8Decoder.next_fuel (d.size + 1) d

/-- All bytes the decoder can still read (stream and lookahead) are below 256,
as the source's bytes-stream assertion (lines 60-64) guarantees. -/
def UTF8Decoder.ByteOk (d : UTF8Decoder) : Bool :=
  d.stream.all (fun b => decide (b < 256))
    && d.stuffed_byte.all (fun b => decide (b < 256))

/-- Observable outcome of `decoder.read(n)` (lines 181-182). -/
inductive ReadResult where
  | ok (codepoints : List Nat) (d : UTF8Decoder)
  | stopIteration (d : UTF8Decoder)
  | runtimeError (d : UTF8Decoder)
  | invalidUTF8Encoding (byte_num : Nat)
  | stuffAssertErr
  | classifyAssertErr
  | outOfFuel
deriving DecidableEq, Repr

/-- `read` (lines 181-182): `''.join(next(self) for _ in range(num_bytes))`.
The generator expression pulls `num_bytes` times and the join concatenates the
characters.  A `StopIteration` raised by `next(self)` inside the generator
expression is converted by the language to a `RuntimeError` (generator
semantics, PEP 479, mandatory since Python 3.7), so end of stream mid-`read`
surfaces as `runtimeError`; `InvalidUTF8Encoding` propagates unchanged. -/
def UTF8Decoder.read (d : UTF8Decoder) : Nat → ReadResult
  | 0 => .ok [] d
  | num_bytes + 1 =>
    match d.next with
    | .chr c d1 =>
      match UTF8Decoder.read d1 num_bytes with
      | .ok cs d2 => .ok (c :: cs) d2
      | r => r
    | .stop d1 => .runtimeError d1
    | .invalidUTF8Encoding n => .invalidUTF8Encoding n
    | .stuffAssertErr => .stuffAssertErr
    | .classifyAssertErr => .classifyAssertErr
    | .outOfFuel => .outOfFuel

/-- Modelled from the spec: the spec's description of the convenience
operation (§6, "read N scalars, concatenated... equivalent to pulling N times
and joining results (fails the same way `next()` would on any individual
pull)").  Identical to `UTF8Decoder.read` except that end of stream surfaces
the way a single `next()` signals it, as `StopIteration`. -/
def UTF8Decoder.read_spec (d : UTF8Decoder) : Nat → ReadResult
  | 0 => .ok [] d
  | num_bytes + 1 =>
    match d.next with
    | .chr c d1 =>
      match UTF8Decoder.read_spec d1 num_bytes with
      | .ok cs d2 => .ok (c :: cs) d2
      | r => r
    | .stop d1 => .stopIteration d1
    | .invalidUTF8Encoding n => .invalidUTF8Encoding n
    | .stuffAssertErr => .stuffAssertErr
    | .classifyAssertErr => .classifyAssertErr
    | .outOfFuel => .outOfFuel

/-- Modelled from the spec: the repository contains no encoder (§1 declares
encoding a non-goal), but claim C1 quantifies over "the canonical UTF-8
encoding of v".  This is the canonical encoding per the bit-pattern table of
§4.1 read in reverse: 1 byte below 0x80, 2 bytes below 0x800, 3 bytes below
0x10000, 4 bytes up to 0x10FFFF. -/
def encode_utf8 (v : Nat) : List Nat :=
  if v < 0x80 then [v]
  else if v < 0x800 then
    [0xc0 ||| (v >>> 6), 0x80 ||| (v &&& 0x3f)]
  else if v < 0x10000 then
    [0xe0 ||| (v >>> 12), 0x80 ||| ((v >>> 6) &&& 0x3f), 0x80 ||| (v &&& 0x3f)]
  else
    [0xf0 ||| (v >>> 18), 0x80 ||| ((v >>> 12) &&& 0x3f),
     0x80 ||| ((v >>> 6) &&& 0x3f), 0x80 ||| (v &&& 0x3f)]

/-! ## Arithmetic bridge lemmas -/

/-- Oring a value `b` below `2^n` into a multiple of `2^n` is addition: the
bit ranges are disjoint. -/
theorem lor_disjoint (a b n : Nat) (ha : a % 2 ^ n = 0) (hb : b < 2 ^ n) :
    a ||| b = a + b := by
  have hbf : ∀ i, n ≤ i → b.testBit i = false := by
    intro i hi
    exact Nat.testBit_lt_two_pow
      (lt_of_lt_of_le hb (Nat.pow_le_pow_right (by norm_num) hi))
  have haq : a = 2 ^ n * (a / 2 ^ n) := by
    conv_lhs => rw [← Nat.div_add_mod a (2 ^ n)]
    omega
  have hmod : (a ||| b) % 2 ^ n = b := by
    apply Nat.eq_of_testBit_eq
    intro i
    rw [Nat.testBit_mod_two_pow, Nat.testBit_or]
    by_cases hi : i < n
    · have hai : a.testBit i = false := by
        rw [haq, Nat.mul_comm, ← Nat.shiftLeft_eq, Nat.testBit_shiftLeft]
        simp [Nat.not_le.mpr hi]
      simp [hi, hai]
    · simp [hi, hbf i (Nat.not_lt.mp hi)]
  have hdiv : (a ||| b) >>> n = a >>> n := by
    apply Nat.eq_of_testBit_eq
    intro i
    rw [Nat.testBit_shiftRight, Nat.testBit_shiftRight, Nat.testBit_or,
      hbf (n + i) (Nat.le_add_right n i)]
    simp
  have hsum : a ||| b = 2 ^ n * ((a ||| b) / 2 ^ n) + (a ||| b) % 2 ^ n :=
    (Nat.div_add_mod _ _).symm
  rw [hmod] at hsum
  rw [Nat.shiftRight_eq_div_pow, Nat.shiftRight_eq_div_pow] at hdiv
  rw [hdiv] at hsum
  rw [← haq] at hsum
  exact hsum

/-! ## Basic facts about `read_one` and `stuff_byte` -/

/-- A successful `read_one` leaves the lookahead empty, shrinks `size` by
exactly one, preserves the configuration and the pending counter, and yields a
byte below 256 from a well-formed decoder. -/
theorem read_one_ok_spec (d : UTF8Decoder) (b : Nat) (d1 : UTF8Decoder)
    (h : d.read_one = .ok b d1) :
    d1.stuffed_byte = none ∧ d.size = d1.size + 1 ∧
    d1.errors = d.errors ∧ d1.disallow_nonchars = d.disallow_nonchars ∧
    d1.num_pending_replacement = d.num_pending_replacement ∧
    (d.ByteOk = true → b < 256 ∧ d1.ByteOk = true) := by
  unfold UTF8Decoder.read_one at h
  rcases hsb : d.stuffed_byte with _ | b0
  · rw [hsb] at h
    rcases hst : d.stream with _ | ⟨b1, rest⟩ <;> rw [hst] at h
    · exact absurd h (by simp)
    · injection h with hb hd
      subst hb
      subst hd
      refine ⟨rfl, ?_, rfl, rfl, rfl, ?_⟩
      · simp [UTF8Decoder.size, hsb, hst]
      · intro hok
        unfold UTF8Decoder.ByteOk at hok ⊢
        rw [hst] at hok
        simp_all
  · rw [hsb] at h
    injection h with hb hd
    subst hb
    subst hd
    refine ⟨rfl, ?_, rfl, rfl, rfl, ?_⟩
    · simp [UTF8Decoder.size, hsb]
    · intro hok
      unfold UTF8Decoder.ByteOk at hok ⊢
      rw [hsb] at hok
      simp_all

/-- A failing `read_one` only bumps the byte counter. -/
theorem read_one_stop_spec (d : UTF8Decoder) (d1 : UTF8Decoder)
    (h : d.read_one = .stop d1) : d1 = { d with byte_num := d.byte_num + 1 } := by
  unfold UTF8Decoder.read_one at h
  rcases hsb : d.stuffed_byte with _ | b0 <;> rw [hsb] at h
  · rcases hst : d.stream with _ | ⟨b1, rest⟩ <;> rw [hst] at h
    · injection h with hd
      exact hd.symm
    · exact absurd h (by simp)
  · exact absurd h (by simp)

/-- Stuffing into an empty lookahead slot always succeeds. -/
theorem stuff_byte_of_none (d : UTF8Decoder) (b : Nat)
    (h : d.stuffed_byte = none) :
    d.stuff_byte b = some { d with stuffed_byte := some b } := by
  unfold UTF8Decoder.stuff_byte
  simp [h]

/-! ## Facts about the continuation-byte loop -/

/-- The loop never trips the `stuff_byte` assertion: each stuffing is
performed immediately after a successful `read_one`, which always leaves the
lookahead slot empty. -/
theorem read_continuations_no_assert (num_bytes : Nat) :
    ∀ (br cp : Nat) (d : UTF8Decoder),
      UTF8Decoder.read_continuations num_bytes br cp d ≠ .assertErr := by
  intro br
  induction br with
  | zero =>
    intro cp d h
    simp [UTF8Decoder.read_continuations] at h
  | succ br ih =>
    intro cp d h
    rw [UTF8Decoder.read_continuations] at h
    split at h
    · exact ContResult.noConfusion h
    · rename_i byte d1 heq
      split at h
      · rw [stuff_byte_of_none d1 byte (read_one_ok_spec d byte d1 heq).1] at h
        simp at h
      · simp only [] at h
        split at h
        · exact ContResult.noConfusion h
        · exact ih _ _ h

/-- An erroring run of the loop never grows `size`, preserves the
configuration and pending counter, and preserves well-formedness of the
buffered bytes. -/
theorem read_continuations_err_spec (num_bytes : Nat) :
    ∀ (br cp n : Nat) (d d1 : UTF8Decoder),
      UTF8Decoder.read_continuations num_bytes br cp d = .err n d1 →
      d1.size ≤ d.size ∧ d1.errors = d.errors ∧
      d1.disallow_nonchars = d.disallow_nonchars ∧
      d1.num_pending_replacement = d.num_pending_replacement ∧
      (d.ByteOk = true → d1.ByteOk = true) := by
  intro br
  induction br with
  | zero =>
    intro cp n d d1 h
    simp [UTF8Decoder.read_continuations] at h
  | succ br ih =>
    intro cp n d d1 h
    rw [UTF8Decoder.read_continuations] at h
    split at h
    · rename_i d2 heq
      injection h with hn hd
      subst hd
      rw [read_one_stop_spec d d2 heq]
      refine ⟨?_, rfl, rfl, rfl, ?_⟩
      · simp [UTF8Decoder.size]
      · intro hok
        unfold UTF8Decoder.ByteOk at hok ⊢
        simpa using hok
    · rename_i byte d2 heq
      obtain ⟨hsn, hsz, herr, hdis, hpend, hbo⟩ := read_one_ok_spec d byte d2 heq
      split at h
      · rw [stuff_byte_of_none d2 byte hsn] at h
        simp only [] at h
        injection h with hn hd
        subst hd
        refine ⟨?_, herr, hdis, hpend, ?_⟩
        · simp only [UTF8Decoder.size] at hsz ⊢
          simp [hsn] at hsz
          simp
          omega
        · intro hok
          obtain ⟨hb, hok2⟩ := hbo hok
          unfold UTF8Decoder.ByteOk at hok2 ⊢
          simp only [Option.all_some]
          simp only [hsn, Option.all_none, Bool.and_true] at hok2
          simp [hok2, hb]
      · simp only [] at h
        split at h
        · rename_i hm
          injection h with hn hd
          subst hd
          exact ⟨by omega, herr, hdis, hpend, fun hok => (hbo hok).2⟩
        · obtain ⟨ih1, ih2, ih3, ih4, ih5⟩ := ih _ _ _ _ h
          exact ⟨by omega, by rw [ih2, herr], by rw [ih3, hdis],
            by rw [ih4, hpend], fun hok => ih5 ((hbo hok).2)⟩

/-- A successful run of the loop never grows `size`, preserves the
configuration and pending counter, and preserves well-formedness. -/
theorem read_continuations_ok_spec (num_bytes : Nat) :
    ∀ (br cp cp1 : Nat) (d d1 : UTF8Decoder),
      UTF8Decoder.read_continuations num_bytes br cp d = .ok cp1 d1 →
      d1.size ≤ d.size ∧ d1.errors = d.errors ∧
      d1.disallow_nonchars = d.disallow_nonchars ∧
      d1.num_pending_replacement = d.num_pending_replacement ∧
      (d.ByteOk = true → d1.ByteOk = true) := by
  intro br
  induction br with
  | zero =>
    intro cp cp1 d d1 h
    simp only [UTF8Decoder.read_continuations] at h
    injection h with hc hd
    subst hd
    exact ⟨le_refl _, rfl, rfl, rfl, fun hok => hok⟩
  | succ br ih =>
    intro cp cp1 d d1 h
    rw [UTF8Decoder.read_continuations] at h
    split at h
    · exact ContResult.noConfusion h
    · rename_i byte d2 heq
      obtain ⟨hsn, hsz, herr, hdis, hpend, hbo⟩ := read_one_ok_spec d byte d2 heq
      split at h
      · rw [stuff_byte_of_none d2 byte hsn] at h
        simp at h
      · simp only [] at h
        split at h
        · exact ContResult.noConfusion h
        · obtain ⟨ih1, ih2, ih3, ih4, ih5⟩ := ih _ _ _ _ h
          exact ⟨by omega, by rw [ih2, herr], by rw [ih3, hdis],
            by rw [ih4, hpend], fun hok => ih5 ((hbo hok).2)⟩


/-- Each continuation byte ors six fresh low-order bits into an accumulator
that is a multiple of `2^(br*6)`, so a successful loop run only adds bits
strictly below that alignment: the result stays in
`[cp, cp + 2^(br*6))`. -/
theorem read_continuations_ok_bounds (num_bytes : Nat) :
    ∀ (br cp cp1 : Nat) (d d1 : UTF8Decoder),
      cp % 2 ^ (br * 6) = 0 →
      UTF8Decoder.read_continuations num_bytes br cp d = .ok cp1 d1 →
      cp ≤ cp1 ∧ cp1 < cp + 2 ^ (br * 6) := by
  intro br
  induction br with
  | zero =>
    intro cp cp1 d d1 hal h
    simp only [UTF8Decoder.read_continuations] at h
    injection h with hc hd
    subst hc
    simp
  | succ br ih =>
    intro cp cp1 d d1 hal h
    rw [UTF8Decoder.read_continuations] at h
    split at h
    · exact ContResult.noConfusion h
    · rename_i byte d2 heq
      split at h
      · rw [stuff_byte_of_none d2 byte (read_one_ok_spec d byte d2 heq).1] at h
        simp at h
      · simp only [] at h
        split at h
        · exact ContResult.noConfusion h
        · have hpow : (2 : Nat) ^ ((br + 1) * 6) = 2 ^ (br * 6) * 64 := by
            rw [Nat.succ_mul, Nat.pow_add]
          have hand : byte &&& 0b00111111 ≤ 63 := Nat.and_le_right
          have hshl : (byte &&& 0b00111111) <<< (br * 6)
              = (byte &&& 0b00111111) * 2 ^ (br * 6) := Nat.shiftLeft_eq _ _
          have hxle : (byte &&& 0b00111111) <<< (br * 6) ≤ 63 * 2 ^ (br * 6) := by
            rw [hshl]
            exact Nat.mul_le_mul_right _ (by omega)
          have hxlt : (byte &&& 0b00111111) <<< (br * 6) < 2 ^ ((br + 1) * 6) := by
            rw [hpow]
            have hk : (0 : Nat) < 2 ^ (br * 6) := Nat.pos_pow_of_pos _ (by norm_num)
            omega
          have hor : cp ||| ((byte &&& 0b00111111) <<< (br * 6))
              = cp + (byte &&& 0b00111111) <<< (br * 6) :=
            lor_disjoint _ _ _ hal hxlt
          rw [hor] at h
          have hal1 : (cp + (byte &&& 0b00111111) <<< (br * 6)) % 2 ^ (br * 6) = 0 := by
            have hd1 : 2 ^ (br * 6) ∣ cp := by
              have hdd : (2 : Nat) ^ (br * 6) ∣ 2 ^ ((br + 1) * 6) :=
                Nat.pow_dvd_pow 2 (by omega)
              exact dvd_trans hdd (Nat.dvd_of_mod_eq_zero hal)
            have hd2 : 2 ^ (br * 6) ∣ (byte &&& 0b00111111) <<< (br * 6) := by
              rw [hshl]
              exact Dvd.intro_left _ rfl
            exact Nat.mod_eq_zero_of_dvd (dvd_add hd1 hd2)
          obtain ⟨ih1, ih2⟩ := ih _ _ _ _ hal1 h
          have hk : (0 : Nat) < 2 ^ (br * 6) := Nat.pos_pow_of_pos _ (by norm_num)
          constructor
          · omega
          · omega

/-- For sequences of four or more bytes the in-loop range check guarantees
that a successful loop run ends at or below `MAX_CODEPOINT`. -/
theorem read_continuations_ok_le_max (num_bytes : Nat) (h4 : 4 ≤ num_bytes) :
    ∀ (br cp cp1 : Nat) (d d1 : UTF8Decoder), 1 ≤ br →
      UTF8Decoder.read_continuations num_bytes br cp d = .ok cp1 d1 →
      cp1 ≤ MAX_CODEPOINT := by
  intro br
  induction br with
  | zero =>
    intro cp cp1 d d1 hbr h
    omega
  | succ br ih =>
    intro cp cp1 d d1 hbr h
    rw [UTF8Decoder.read_continuations] at h
    split at h
    · exact ContResult.noConfusion h
    · rename_i byte d2 heq
      split at h
      · rw [stuff_byte_of_none d2 byte (read_one_ok_spec d byte d2 heq).1] at h
        simp at h
      · simp only [] at h
        split at h
        · exact ContResult.noConfusion h
        · rename_i hm
          have hle : cp ||| ((byte &&& 0b00111111) <<< (br * 6)) ≤ MAX_CODEPOINT := by
            rcases Nat.lt_or_ge MAX_CODEPOINT
                (cp ||| ((byte &&& 0b00111111) <<< (br * 6))) with hgt | hle
            · exact absurd ⟨h4, hgt⟩ hm
            · exact hle
          rcases Nat.eq_zero_or_pos br with hbz | hbp
          · subst hbz
            simp only [UTF8Decoder.read_continuations] at h
            injection h with hc hd
            subst hc
            exact hle
          · exact ih _ _ _ _ hbp h

/-! ## Facts about `finish`, `next_seq` and `next_raw` -/

/-- The post-loop validation never touches the decoder state on error. -/
theorem finish_err_state (num_bytes leading_byte cp n : Nat)
    (d d1 : UTF8Decoder) (h : UTF8Decoder.finish num_bytes leading_byte cp d = .err n d1) :
    d1 = d := by
  unfold UTF8Decoder.finish at h
  split at h
  · injection h with hn hd
    exact hd.symm
  · split at h
    · injection h with hn hd
      exact hd.symm
    · split at h
      · injection h with hn hd
        exact hd.symm
      · exact RawResult.noConfusion h

/-- A successful post-loop validation returns the accumulated codepoint and
the unmodified state, and certifies that all three checks passed. -/
theorem finish_chr_spec (num_bytes leading_byte cp : Nat) (d : UTF8Decoder)
    (c : Nat) (d1 : UTF8Decoder)
    (h : UTF8Decoder.finish num_bytes leading_byte cp d = .chr c d1) :
    c = cp ∧ d1 = d ∧
    ¬(num_bytes = 2 ∧ cp < 0x80
      ∨ num_bytes = 3 ∧ cp < 0x800
      ∨ num_bytes = 4 ∧ cp < 0x10000
      ∨ num_bytes = 5 ∧ cp < 0x200000
      ∨ num_bytes = 6 ∧ cp < 0x4000000) ∧
    ¬(leading_byte = 0xe0 ∧ cp < 0x0800 ∨ leading_byte = 0xf0 ∧ cp < 0x10000) ∧
    ¬(d.disallow_nonchars ∧ (0xfffe ≤ cp ∨ 0xfdd0 ≤ cp ∧ cp ≤ 0xfdef)) := by
  unfold UTF8Decoder.finish at h
  split at h
  · exact RawResult.noConfusion h
  · split at h
    · exact RawResult.noConfusion h
    · split at h
      · exact RawResult.noConfusion h
      · rename_i h1 h2 h3
        injection h with hc hd
        exact ⟨hc.symm, hd.symm, h1, h2, h3⟩

/-- The post-loop validation only ever returns `err` or `chr`. -/
theorem finish_ne_other (num_bytes leading_byte cp : Nat) (d : UTF8Decoder) :
    UTF8Decoder.finish num_bytes leading_byte cp d ≠ .stuffAssertErr ∧
    UTF8Decoder.finish num_bytes leading_byte cp d ≠ .classifyAssertErr ∧
    ∀ d2, UTF8Decoder.finish num_bytes leading_byte cp d ≠ .stop d2 := by
  unfold UTF8Decoder.finish
  split
  · simp
  · split
    · simp
    · split
      · simp
      · simp

/-- The sequence decoder never trips the `stuff_byte` assertion. -/
theorem next_seq_no_stuffAssert (num_bytes leading_byte cp : Nat)
    (d : UTF8Decoder) :
    UTF8Decoder.next_seq num_bytes leading_byte cp d ≠ .stuffAssertErr := by
  unfold UTF8Decoder.next_seq
  split
  · simp
  · split
    · rename_i heq
      exact absurd heq (read_continuations_no_assert _ _ _ _)
    · simp
    · exact (finish_ne_other _ _ _ _).1

/-- An erroring `next_seq` never grows `size` and preserves configuration,
pending counter and byte well-formedness. -/
theorem next_seq_err_spec (num_bytes leading_byte cp n : Nat)
    (d d1 : UTF8Decoder)
    (h : UTF8Decoder.next_seq num_bytes leading_byte cp d = .err n d1) :
    d1.size ≤ d.size ∧ d1.errors = d.errors ∧
    d1.disallow_nonchars = d.disallow_nonchars ∧
    d1.num_pending_replacement = d.num_pending_replacement ∧
    (d.ByteOk = true → d1.ByteOk = true) := by
  unfold UTF8Decoder.next_seq at h
  split at h
  · injection h with hn hd
    subst hd
    exact ⟨le_refl _, rfl, rfl, rfl, fun hok => hok⟩
  · split at h
    · exact RawResult.noConfusion h
    · rename_i n2 d2 heq
      injection h with hn hd
      subst hd
      exact read_continuations_err_spec _ _ _ _ _ _ heq
    · rename_i cp2 d2 heq
      rw [finish_err_state _ _ _ _ _ _ h]
      exact read_continuations_ok_spec _ _ _ _ _ _ heq

/-- A successful `next_seq` comes from a successful loop run followed by a
successful validation, with an unmodified final state and a non-0xED leading
byte. -/
theorem next_seq_chr_spec (num_bytes leading_byte cp c : Nat)
    (d d1 : UTF8Decoder)
    (h : UTF8Decoder.next_seq num_bytes leading_byte cp d = .chr c d1) :
    leading_byte ≠ 0xed ∧
    ∃ d2, UTF8Decoder.read_continuations num_bytes (num_bytes - 1) cp d = .ok c d2 ∧
      UTF8Decoder.finish num_bytes leading_byte c d2 = .chr c d1 := by
  unfold UTF8Decoder.next_seq at h
  split at h
  · exact RawResult.noConfusion h
  · rename_i hned
    split at h
    · exact RawResult.noConfusion h
    · exact RawResult.noConfusion h
    · rename_i cp2 d2 heq
      obtain ⟨hc, hd, hcond⟩ := finish_chr_spec _ _ _ _ _ _ h
      subst hc
      exact ⟨hned, d2, heq, h⟩

/-- The sequence decoder cannot produce the classifier assertion. -/
theorem next_seq_no_classifyAssert (num_bytes leading_byte cp : Nat)
    (d : UTF8Decoder) :
    UTF8Decoder.next_seq num_bytes leading_byte cp d ≠ .classifyAssertErr := by
  unfold UTF8Decoder.next_seq
  split
  · simp
  · split
    · simp
    · simp
    · exact (finish_ne_other _ _ _ _).2.1

/-- `next_raw` never trips the `stuff_byte` assertion, from any state: every
stuffing happens right after a successful `read_one`, which empties the
lookahead slot. -/
theorem next_raw_no_stuffAssert (d : UTF8Decoder) :
    d.next_raw ≠ .stuffAssertErr := by
  unfold UTF8Decoder.next_raw
  split
  · simp
  · repeat' split
    all_goals first
      | exact next_seq_no_stuffAssert _ _ _ _
      | simp

set_option maxRecDepth 8192 in
/-- On a byte stream (all values below 256) the classifier's fall-through
assertion (source line 123) is unreachable: the eight bit-pattern tests cover
every byte value. -/
theorem next_raw_no_classifyAssert (d : UTF8Decoder) (hok : d.ByteOk = true) :
    d.next_raw ≠ .classifyAssertErr := by
  unfold UTF8Decoder.next_raw
  split
  · simp
  · rename_i l d2 heq
    have hl : l < 256 := ((read_one_ok_spec d l d2 heq).2.2.2.2.2 hok).1
    repeat' split
    all_goals first
      | exact next_seq_no_classifyAssert _ _ _ _
      | simp
      | skip
    rename_i h1 h2 h3 h4 h5 h6 h7 h8
    have hcover : ∀ x : Nat, x < 256 →
        x &&& 0b10000000 = 0 ∨ x &&& 0b11100000 = 0b11000000
        ∨ x &&& 0b11110000 = 0b11100000 ∨ x &&& 0b11111000 = 0b11110000
        ∨ x &&& 0b11111100 = 0b11111000 ∨ x &&& 0b11111110 = 0b11111100
        ∨ x &&& 0b11000000 = 0b10000000 ∨ 0xfe ≤ x := by decide
    rcases hcover l hl with hc | hc | hc | hc | hc | hc | hc | hc
    · exact h1 hc
    · exact h2 hc
    · exact h3 hc
    · exact h4 hc
    · exact h5 hc
    · exact h6 hc
    · exact h7 hc
    · exact h8 hc

/-- An erroring `next_raw` strictly shrinks `size` (at least the leading byte
is gone for good) and preserves configuration, pending counter and byte
well-formedness. -/
theorem next_raw_err_spec (d : UTF8Decoder) (n : Nat) (d1 : UTF8Decoder)
    (h : d.next_raw = .err n d1) :
    d1.size < d.size ∧ d1.errors = d.errors ∧
    d1.disallow_nonchars = d.disallow_nonchars ∧
    d1.num_pending_replacement = d.num_pending_replacement ∧
    (d.ByteOk = true → d1.ByteOk = true) := by
  unfold UTF8Decoder.next_raw at h
  split at h
  · exact RawResult.noConfusion h
  · rename_i l d2 heq
    obtain ⟨hsn, hsz, herr, hdis, hpend, hbo⟩ := read_one_ok_spec d l d2 heq
    repeat' split at h
    all_goals first
      | exact RawResult.noConfusion h
      | (injection h with hn hd
         subst hd
         exact ⟨by omega, herr, hdis, hpend, fun hok => (hbo hok).2⟩)
      | (obtain ⟨h1, h2, h3, h4, h5⟩ := next_seq_err_spec _ _ _ _ _ _ h
         exact ⟨by omega, by rw [h2, herr], by rw [h3, hdis], by rw [h4, hpend],
           fun hok => h5 ((hbo hok).2)⟩)

set_option maxRecDepth 8192 in
/-- Every codepoint produced by `next_raw` from a byte stream is a Unicode
scalar: at most `MAX_CODEPOINT` and never a surrogate.  Two-byte sequences
stay below 0x800; three-byte sequences stay below 0x10000 and can only land
in the surrogate block via leading byte 0xED, which is rejected; four-byte
sequences that survive the overlong check start at 0x10000 and the in-loop
range check caps them at `MAX_CODEPOINT`; five- and six-byte sequences are
always rejected. -/
theorem next_raw_chr_scalar (d : UTF8Decoder) (c : Nat) (d1 : UTF8Decoder)
    (hok : d.ByteOk = true) (h : d.next_raw = .chr c d1) :
    c ≤ MAX_CODEPOINT ∧ ¬(0xd800 ≤ c ∧ c ≤ 0xdfff) := by
  unfold UTF8Decoder.next_raw at h
  split at h
  · exact RawResult.noConfusion h
  · rename_i l d2 heq
    have hl : l < 256 := ((read_one_ok_spec d l d2 heq).2.2.2.2.2 hok).1
    repeat' split at h
    -- goals in branch order: ascii, 2-, 3-, 4-, 5-, 6-byte,
    -- unexpected continuation, impossible leading byte, classifier fall-through
    · -- ascii
      rename_i h0
      injection h with hc hd
      subst hc
      have hlt : l < 128 := by
        have hdec : ∀ x : Nat, x < 256 → x &&& 0b10000000 = 0 → x < 128 := by
          decide
        exact hdec l hl h0
      exact ⟨by unfold MAX_CODEPOINT; omega, by omega⟩
    · -- 2-byte
      obtain ⟨hned, d3, hloop, hfin⟩ := next_seq_chr_spec _ _ _ _ _ _ h
      have hsh : (l &&& 0b00011111) <<< 6 = (l &&& 0b00011111) * 2 ^ (1 * 6) :=
        Nat.shiftLeft_eq _ _
      have hal : ((l &&& 0b00011111) <<< 6) % 2 ^ (1 * 6) = 0 := by
        rw [hsh]
        exact Nat.mul_mod_left _ _
      obtain ⟨hlo, hhi⟩ := read_continuations_ok_bounds 2 1 _ _ _ _ hal hloop
      rw [hsh] at hhi
      have hple : l &&& 0b00011111 ≤ 31 := Nat.and_le_right
      have hcle : c < 2048 := by
        have hp : (2 : Nat) ^ (1 * 6) = 64 := by norm_num
        rw [hp] at hhi
        omega
      exact ⟨by unfold MAX_CODEPOINT; omega, by omega⟩
    · -- 3-byte
      rename_i h3
      obtain ⟨hned, d3, hloop, hfin⟩ := next_seq_chr_spec _ _ _ _ _ _ h
      have hsh : (l &&& 0b00001111) <<< 12 = (l &&& 0b00001111) * 2 ^ (2 * 6) :=
        Nat.shiftLeft_eq _ _
      have hal : ((l &&& 0b00001111) <<< 12) % 2 ^ (2 * 6) = 0 := by
        rw [hsh]
        exact Nat.mul_mod_left _ _
      obtain ⟨hlo, hhi⟩ := read_continuations_ok_bounds 3 2 _ _ _ _ hal hloop
      rw [hsh] at hlo hhi
      have hple : l &&& 0b00001111 ≤ 15 := Nat.and_le_right
      have hp : (2 : Nat) ^ (2 * 6) = 4096 := by norm_num
      rw [hp] at hlo hhi
      constructor
      · unfold MAX_CODEPOINT
        omega
      · rintro ⟨hs1, hs2⟩
        have hnib : l &&& 0b00001111 = 13 := by omega
        have hdec : ∀ x : Nat, x < 256 → x &&& 0b11110000 = 0b11100000 →
            x &&& 0b00001111 = 13 → x = 0xed := by decide
        exact hned (hdec l hl h3 hnib)
    · -- 4-byte
      obtain ⟨hned, d3, hloop, hfin⟩ := next_seq_chr_spec _ _ _ _ _ _ h
      have hmax : c ≤ MAX_CODEPOINT :=
        read_continuations_ok_le_max 4 (by norm_num) 3 _ _ _ _ (by norm_num) hloop
      obtain ⟨-, -, hov, -, -⟩ := finish_chr_spec _ _ _ _ _ _ hfin
      have hge : 0x10000 ≤ c := by
        rcases Nat.lt_or_ge c 0x10000 with hlt | hge
        · exact absurd (Or.inr (Or.inr (Or.inl ⟨rfl, hlt⟩))) hov
        · exact hge
      exact ⟨hmax, by omega⟩
    · -- 5-byte: never succeeds
      obtain ⟨hned, d3, hloop, hfin⟩ := next_seq_chr_spec _ _ _ _ _ _ h
      have hmax : c ≤ MAX_CODEPOINT :=
        read_continuations_ok_le_max 5 (by norm_num) 4 _ _ _ _ (by norm_num) hloop
      obtain ⟨-, -, hov, -, -⟩ := finish_chr_spec _ _ _ _ _ _ hfin
      have hlt : c < 0x200000 := by
        unfold MAX_CODEPOINT at hmax
        omega
      exact absurd (Or.inr (Or.inr (Or.inr (Or.inl ⟨rfl, hlt⟩)))) hov
    · -- 6-byte: never succeeds
      obtain ⟨hned, d3, hloop, hfin⟩ := next_seq_chr_spec _ _ _ _ _ _ h
      have hmax : c ≤ MAX_CODEPOINT :=
        read_continuations_ok_le_max 6 (by norm_num) 5 _ _ _ _ (by norm_num) hloop
      obtain ⟨-, -, hov, -, -⟩ := finish_chr_spec _ _ _ _ _ _ hfin
      have hlt : c < 0x4000000 := by
        unfold MAX_CODEPOINT at hmax
        omega
      exact absurd (Or.inr (Or.inr (Or.inr (Or.inr ⟨rfl, hlt⟩)))) hov
    · exact RawResult.noConfusion h
    · exact RawResult.noConfusion h
    · exact RawResult.noConfusion h

/-! ## Facts about `next_fuel` -/

/-- No amount of fuel makes `next` trip the `stuff_byte` assertion. -/
theorem next_fuel_no_stuffAssert : ∀ (fuel : Nat) (d : UTF8Decoder),
    UTF8Decoder.next_fuel fuel d ≠ .stuffAssertErr := by
  intro fuel
  induction fuel with
  | zero =>
    intro d h
    simp [UTF8Decoder.next_fuel] at h
  | succ fuel ih =>
    intro d h
    rw [UTF8Decoder.next_fuel] at h
    split at h
    · exact NextResult.noConfusion h
    · split at h
      · exact NextResult.noConfusion h
      · exact NextResult.noConfusion h
      · rename_i heq
        exact next_raw_no_stuffAssert d heq
      · exact NextResult.noConfusion h
      · split at h
        · exact NextResult.noConfusion h
        · split at h
          · exact ih _ h
          · exact NextResult.noConfusion h

/-- On a byte stream, no amount of fuel makes `next` trip the classifier
assertion. -/
theorem next_fuel_no_classifyAssert : ∀ (fuel : Nat) (d : UTF8Decoder),
    d.ByteOk = true → UTF8Decoder.next_fuel fuel d ≠ .classifyAssertErr := by
  intro fuel
  induction fuel with
  | zero =>
    intro d hok h
    simp [UTF8Decoder.next_fuel] at h
  | succ fuel ih =>
    intro d hok h
    rw [UTF8Decoder.next_fuel] at h
    split at h
    · exact NextResult.noConfusion h
    · split at h
      · exact NextResult.noConfusion h
      · exact NextResult.noConfusion h
      · exact NextResult.noConfusion h
      · rename_i heq
        exact next_raw_no_classifyAssert d hok heq
      · rename_i n d2 heq
        split at h
        · exact NextResult.noConfusion h
        · split at h
          · exact ih _ ((next_raw_err_spec d n d2 heq).2.2.2.2 hok) h
          · exact NextResult.noConfusion h

/-- Every codepoint `next` returns from a byte stream, with any fuel, is a
Unicode scalar. -/
theorem next_fuel_chr_scalar : ∀ (fuel : Nat) (d : UTF8Decoder) (c : Nat)
    (d1 : UTF8Decoder), d.ByteOk = true →
    UTF8Decoder.next_fuel fuel d = .chr c d1 →
    c ≤ MAX_CODEPOINT ∧ ¬(0xd800 ≤ c ∧ c ≤ 0xdfff) := by
  intro fuel
  induction fuel with
  | zero =>
    intro d c d1 hok h
    simp [UTF8Decoder.next_fuel] at h
  | succ fuel ih =>
    intro d c d1 hok h
    rw [UTF8Decoder.next_fuel] at h
    split at h
    · injection h with hc hd
      subst hc
      exact ⟨by decide, by decide⟩
    · split at h
      · rename_i c2 d2 heq
        injection h with hc hd
        subst hc
        exact next_raw_chr_scalar d _ _ hok heq
      · exact NextResult.noConfusion h
      · exact NextResult.noConfusion h
      · exact NextResult.noConfusion h
      · rename_i n d2 heq
        split at h
        · injection h with hc hd
          subst hc
          exact ⟨by decide, by decide⟩
        · split at h
          · exact ih d2 c d1 ((next_raw_err_spec d n d2 heq).2.2.2.2 hok) h
          · exact NextResult.noConfusion h

/-- Fuel `size d + 1` (and anything larger) is always enough: each IGNORE
retry strictly shrinks `size`. -/
theorem next_fuel_no_outOfFuel : ∀ (fuel : Nat) (d : UTF8Decoder),
    d.size < fuel → UTF8Decoder.next_fuel fuel d ≠ .outOfFuel := by
  intro fuel
  induction fuel with
  | zero =>
    intro d hlt h
    omega
  | succ fuel ih =>
    intro d hlt h
    rw [UTF8Decoder.next_fuel] at h
    split at h
    · exact NextResult.noConfusion h
    · split at h
      · exact NextResult.noConfusion h
      · exact NextResult.noConfusion h
      · exact NextResult.noConfusion h
      · exact NextResult.noConfusion h
      · rename_i n d2 heq
        split at h
        · exact NextResult.noConfusion h
        · split at h
          · have hsz := (next_raw_err_spec d n d2 heq).1
            exact ih d2 (by omega) h
          · exact NextResult.noConfusion h

/-- Under the IGNORE policy a sufficiently fuelled `next` on a byte stream
always lands on a decoded scalar or a clean end of stream. -/
theorem next_fuel_ignore_chr_or_stop : ∀ (fuel : Nat) (d : UTF8Decoder),
    d.size < fuel → d.ByteOk = true → d.errors = IGNORE →
    (∃ c d1, UTF8Decoder.next_fuel fuel d = .chr c d1) ∨
    (∃ d1, UTF8Decoder.next_fuel fuel d = .stop d1) := by
  intro fuel
  induction fuel with
  | zero =>
    intro d hlt hok hig
    omega
  | succ fuel ih =>
    intro d hlt hok hig
    rw [UTF8Decoder.next_fuel]
    split
    · exact Or.inl ⟨_, _, rfl⟩
    · split
      · exact Or.inl ⟨_, _, rfl⟩
      · exact Or.inr ⟨_, rfl⟩
      · rename_i heq
        exact absurd heq (next_raw_no_stuffAssert d)
      · rename_i heq
        exact absurd heq (next_raw_no_classifyAssert d hok)
      · rename_i n d2 heq
        obtain ⟨hsz, herr, hdis, hpend, hbo⟩ := next_raw_err_spec d n d2 heq
        rw [herr, hig]
        rw [if_neg (by decide), if_pos rfl]
        exact ih d2 (by omega) (hbo hok) (by rw [herr, hig])

/-! ## One-step unfolding helpers for `next` -/

/-- With no pending replacements, a `next` call that detects an error
dispatches on the policy exactly as `error()` does (lines 70-83). -/
theorem next_eq_of_raw_err (d : UTF8Decoder) (n : Nat) (d1 : UTF8Decoder)
    (hp : d.num_pending_replacement = 0) (h : d.next_raw = .err n d1) :
    d.next = (if d1.errors = REPLACE then
        .chr REPLACEMENT_CHAR
          { d1 with num_pending_replacement :=
              d1.num_pending_replacement + (n - 1) }
      else if d1.errors = IGNORE then UTF8Decoder.next_fuel d.size d1
      else .invalidUTF8Encoding d1.byte_num) := by
  rw [UTF8Decoder.next, UTF8Decoder.next_fuel, if_neg (by omega)]
  simp only [h]

/-- Step 1 of `__next__` (lines 89-91): a pending replacement is returned
immediately, decrementing the counter and touching nothing else. -/
theorem next_pending (e : UTF8Decoder) (he : 0 < e.num_pending_replacement) :
    e.next = .chr REPLACEMENT_CHAR
      { e with num_pending_replacement := e.num_pending_replacement - 1 } := by
  rw [UTF8Decoder.next, UTF8Decoder.next_fuel, if_pos he]

/-- Draining `m` pending replacements with `read m` yields `m` replacement
characters and leaves stream, lookahead and byte counter untouched. -/
theorem read_pending : ∀ (m : Nat) (e : UTF8Decoder),
    e.num_pending_replacement = m →
    e.read m = .ok (List.replicate m REPLACEMENT_CHAR)
      { e with num_pending_replacement := 0 } := by
  intro m
  induction m with
  | zero =>
    intro e he
    rw [UTF8Decoder.read]
    obtain ⟨st, er, di, bn, pr, sb⟩ := e
    dsimp only at he
    subst he
    rfl
  | succ m ih =>
    intro e he
    rw [UTF8Decoder.read, next_pending e (by omega)]
    have he1 : ({ e with num_pending_replacement :=
        e.num_pending_replacement - 1 } : UTF8Decoder).num_pending_replacement
        = m := by
      simp [he]
    simp [ih _ he1, List.replicate_succ]

/-- C2: under REPLACE, an invalid sequence detected with consumed-byte count
`n` produces one replacement character from the failing call, leaving `n - 1`
pending (first conjunct); each call with a positive pending counter returns
one replacement character, decrements the counter and leaves the rest of the
state, in particular the stream and the lookahead, untouched (second
conjunct); draining a pending counter of `m` over the next `m` calls yields
exactly `m` replacement characters without touching the supplier (third
conjunct).  So the total output for a sequence with consumed count `n` is
exactly `n` replacement characters, one per consumed byte. -/
theorem claim_C2 :
    (∀ (d : UTF8Decoder) (n : Nat) (d1 : UTF8Decoder),
      d.errors = REPLACE → d.num_pending_replacement = 0 →
      d.next_raw = .err n d1 →
      d.next = .chr REPLACEMENT_CHAR
        { d1 with num_pending_replacement := n - 1 }) ∧
    (∀ e : UTF8Decoder, 0 < e.num_pending_replacement →
      e.next = .chr REPLACEMENT_CHAR
        { e with num_pending_replacement := e.num_pending_replacement - 1 }) ∧
    (∀ (e : UTF8Decoder) (m : Nat), e.num_pending_replacement = m →
      e.read m = .ok (List.replicate m REPLACEMENT_CHAR)
        { e with num_pending_replacement := 0 }) := by
  refine ⟨?_, next_pending, fun e m he => read_pending m e he⟩
  intro d n d1 hrep hp h
  obtain ⟨hsz, herr, hdis, hpend, hbo⟩ := next_raw_err_spec d n d1 h
  rw [next_eq_of_raw_err d n d1 hp h, herr, hrep,
    if_pos rfl, hpend, hp, Nat.zero_add]

/-- Witness for C2 at concrete inputs: the stream `C0 80` under REPLACE
errors with consumed count 2, and a decoder with two pending replacements
returns one and decrements. -/
theorem claim_C2_witness :
    UTF8Decoder.next (mkDecoder [0xc0, 0x80] REPLACE true) =
      .chr REPLACEMENT_CHAR
        { stream := [], errors := REPLACE, disallow_nonchars := true,
          byte_num := 2, num_pending_replacement := 1, stuffed_byte := none } ∧
    UTF8Decoder.read
      { stream := [], errors := REPLACE, disallow_nonchars := true,
        byte_num := 2, num_pending_replacement := 1, stuffed_byte := none } 1 =
      .ok (List.replicate 1 REPLACEMENT_CHAR)
        { stream := [], errors := REPLACE, disallow_nonchars := true,
          byte_num := 2, num_pending_replacement := 0, stuffed_byte := none } := by
  constructor
  · exact claim_C2.1 (mkDecoder [0xc0, 0x80] REPLACE true) 2
      { stream := [], errors := REPLACE, disallow_nonchars := true,
        byte_num := 2, num_pending_replacement := 0, stuffed_byte := none }
      rfl rfl (by decide)
  · exact claim_C2.2.2
      { stream := [], errors := REPLACE, disallow_nonchars := true,
        byte_num := 2, num_pending_replacement := 1, stuffed_byte := none }
      1 rfl

/-- C3: decoding `E2 41` under IGNORE yields the scalar U+0041 and then end
of stream: the non-continuation byte 0x41 is stuffed into the lookahead by
the failing three-byte attempt and re-read as the next leading byte. -/
theorem claim_C3 :
    UTF8Decoder.next (mkDecoder [0xe2, 0x41] IGNORE true) =
      .chr 0x41
        { stream := [], errors := IGNORE, disallow_nonchars := true,
          byte_num := 2, num_pending_replacement := 0, stuffed_byte := none } ∧
    UTF8Decoder.next
      { stream := [], errors := IGNORE, disallow_nonchars := true,
        byte_num := 2, num_pending_replacement := 0, stuffed_byte := none } =
      .stop
        { stream := [], errors := IGNORE, disallow_nonchars := true,
          byte_num := 3, num_pending_replacement := 0, stuffed_byte := none } := by
  exact ⟨by decide, by decide⟩

/-- C7 (amended): under STRICT, every detected violation raises
`InvalidUTF8Encoding` immediately, carrying the decoder's current byte
counter, the state after the error — which is the position after the last
consumed byte for violations detected on read bytes, but one past it for
truncation errors, since the exhausted read attempt also increments the
counter; in particular `C0 80` fails at byte position 2. -/
theorem claim_C7 :
    (∀ (d : UTF8Decoder) (n : Nat) (d1 : UTF8Decoder),
      d.errors = STRICT → d.num_pending_replacement = 0 →
      d.next_raw = .err n d1 →
      d.next = .invalidUTF8Encoding d1.byte_num) ∧
    UTF8Decoder.next (mkDecoder [0xc0, 0x80] STRICT true) =
      .invalidUTF8Encoding 2 := by
  constructor
  · intro d n d1 hst hp h
    obtain ⟨hsz, herr, hdis, hpend, hbo⟩ := next_raw_err_spec d n d1 h
    rw [next_eq_of_raw_err d n d1 hp h, herr, hst,
      if_neg (by decide), if_neg (by decide)]
  · decide

/-- Counterexample to C7 as stated: the one-byte stream `C2` (a truncated
two-byte sequence) consumes only one byte from the supplier, yet the raised
error carries byte position 2, because the read that discovered exhaustion
also incremented the counter. -/
theorem claim_C7_counterexample :
    UTF8Decoder.next (mkDecoder [0xc2] STRICT true) = .invalidUTF8Encoding 2 ∧
    (mkDecoder [0xc2] STRICT true).stream.length = 1 := by
  exact ⟨by decide, by decide⟩

/-- Witness for C7 at a concrete input: an unexpected continuation byte as
the leading byte fails under STRICT at position 1. -/
theorem claim_C7_witness :
    UTF8Decoder.next (mkDecoder [0x80] STRICT true) =
      .invalidUTF8Encoding
        ({ stream := [], errors := STRICT, disallow_nonchars := true,
           byte_num := 1, num_pending_replacement := 0,
           stuffed_byte := none } : UTF8Decoder).byte_num :=
  claim_C7.1 (mkDecoder [0x80] STRICT true) 1
    { stream := [], errors := STRICT, disallow_nonchars := true,
      byte_num := 1, num_pending_replacement := 0, stuffed_byte := none }
    rfl rfl (by decide)

/-- C9: the decoder never attempts to stuff a byte while one is already
buffered, from any state whatsoever: the `AssertionError` branch of
`stuff_byte` is unreachable through `next`, because every stuffing happens
immediately after a successful `read_one`, which empties the lookahead. -/
theorem claim_C9 (d : UTF8Decoder) : d.next ≠ .stuffAssertErr :=
  next_fuel_no_stuffAssert (d.size + 1) d

/-- Witness for C9 at a concrete input. -/
theorem claim_C9_witness :
    UTF8Decoder.next (mkDecoder [0xe2, 0x41] IGNORE true) ≠ .stuffAssertErr :=
  claim_C9 (mkDecoder [0xe2, 0x41] IGNORE true)

/-- C10: `next` always terminates.  First conjunct: fuel exceeding `size d`
(the unread stream bytes plus the buffered byte, so at most "stream bytes
remaining plus one" recursive entries) can never run out, because every
IGNORE retry strictly shrinks `size`.  Second conjunct: under IGNORE, on a
byte stream, the call always ends with a decoded scalar or a clean end of
stream. -/
theorem claim_C10 :
    (∀ (fuel : Nat) (d : UTF8Decoder), d.size < fuel →
      UTF8Decoder.next_fuel fuel d ≠ .outOfFuel) ∧
    (∀ d : UTF8Decoder, d.ByteOk = true → d.errors = IGNORE →
      (∃ c d1, d.next = .chr c d1) ∨ (∃ d1, d.next = .stop d1)) := by
  constructor
  · exact next_fuel_no_outOfFuel
  · intro d hok hig
    exact next_fuel_ignore_chr_or_stop (d.size + 1) d (by omega) hok hig

/-- Witness for C10 at concrete inputs: fuel 1 suffices for the empty stream,
and a run of invalid bytes under IGNORE ends in end-of-stream. -/
theorem claim_C10_witness :
    (UTF8Decoder.next_fuel 1 (mkDecoder [] IGNORE true) ≠ .outOfFuel) ∧
    ((∃ c d1, (mkDecoder [0x80, 0x80, 0x80] IGNORE true).next = .chr c d1) ∨
     (∃ d1, (mkDecoder [0x80, 0x80, 0x80] IGNORE true).next = .stop d1)) :=
  ⟨claim_C10.1 1 (mkDecoder [] IGNORE true) (by decide),
   claim_C10.2 (mkDecoder [0x80, 0x80, 0x80] IGNORE true) (by decide) rfl⟩

/-- C4: every codepoint returned by `next` from a byte stream, under every
policy and configuration and from any decoder state, is a Unicode scalar in
`[0, 0x10FFFF]` outside the surrogate range `[0xD800, 0xDFFF]`. -/
theorem claim_C4 (d : UTF8Decoder) (c : Nat) (d1 : UTF8Decoder)
    (hok : d.ByteOk = true) (h : d.next = .chr c d1) :
    c ≤ 0x10ffff ∧ ¬(0xd800 ≤ c ∧ c ≤ 0xdfff) := by
  have hres := next_fuel_chr_scalar (d.size + 1) d c d1 hok h
  unfold MAX_CODEPOINT at hres
  exact hres

/-- Witness for C4 at a concrete input. -/
theorem claim_C4_witness :
    0x41 ≤ 0x10ffff ∧ ¬(0xd800 ≤ 0x41 ∧ 0x41 ≤ 0xdfff) :=
  claim_C4 (mkDecoder [0x41] STRICT true) 0x41
    { stream := [], errors := STRICT, disallow_nonchars := true,
      byte_num := 1, num_pending_replacement := 0, stuffed_byte := none }
    (by decide) (by decide)

/-- C5: with `disallow_nonchars` enabled, any decoded codepoint that is
≥ 0xFFFE or inside [0xFDD0, 0xFDEF] and reaches the noncharacter check (that
is, passes the overlong and cross checks) is rejected with consumed-byte
count 1 (first conjunct); concretely, `EF BF BE` (U+FFFE) fails under STRICT
with the default `disallow_nonchars`, at byte position 3, and succeeds with
the scalar U+FFFE when `disallow_nonchars` is false (second and third
conjuncts). -/
theorem claim_C5 :
    (∀ (num_bytes leading_byte cp : Nat) (d : UTF8Decoder),
      d.disallow_nonchars = true →
      (0xfffe ≤ cp ∨ 0xfdd0 ≤ cp ∧ cp ≤ 0xfdef) →
      ¬(num_bytes = 2 ∧ cp < 0x80
        ∨ num_bytes = 3 ∧ cp < 0x800
        ∨ num_bytes = 4 ∧ cp < 0x10000
        ∨ num_bytes = 5 ∧ cp < 0x200000
        ∨ num_bytes = 6 ∧ cp < 0x4000000) →
      ¬(leading_byte = 0xe0 ∧ cp < 0x0800
        ∨ leading_byte = 0xf0 ∧ cp < 0x10000) →
      UTF8Decoder.finish num_bytes leading_byte cp d = .err 1 d) ∧
    UTF8Decoder.next (mkDecoder [0xef, 0xbf, 0xbe] STRICT true) =
      .invalidUTF8Encoding 3 ∧
    UTF8Decoder.next (mkDecoder [0xef, 0xbf, 0xbe] STRICT false) =
      .chr 0xfffe
        { stream := [], errors := STRICT, disallow_nonchars := false,
          byte_num := 3, num_pending_replacement := 0, stuffed_byte := none } := by
  refine ⟨?_, by decide, by decide⟩
  intro num_bytes leading_byte cp d hd hnc hov hcr
  unfold UTF8Decoder.finish
  rw [if_neg hov, if_neg hcr, if_pos ⟨hd, hnc⟩]

/-- Witness for C5 at a concrete input: codepoint U+FFFE with a three-byte
sequence and leading byte 0xEF is rejected with consumed count 1. -/
theorem claim_C5_witness :
    UTF8Decoder.finish 3 0xef 0xfffe (mkDecoder [] STRICT true) =
      .err 1 (mkDecoder [] STRICT true) :=
  claim_C5.1 3 0xef 0xfffe (mkDecoder [] STRICT true) rfl
    (by decide) (by decide) (by decide)

/-- Keeping only the bits of a submask: if `m2`'s bits are contained in
`m1`'s, masking with `m1` first changes nothing. -/
theorem and_submask (l m1 m2 : Nat) (hm : m1 &&& m2 = m2) :
    (l &&& m1) &&& m2 = l &&& m2 := by
  rw [Nat.and_assoc, hm]

/-- Compute `l &&& m2` from a known value of `l &&& m1` when `m2` is a
submask of `m1`. -/
theorem and_mask_eq (l m1 m2 v r : Nat) (h : l &&& m1 = v)
    (hm : m1 &&& m2 = m2) (hv : v &&& m2 = r) : l &&& m2 = r := by
  rw [← and_submask l m1 m2 hm, h, hv]

/-- A five- or six-byte sequence whose leading byte is not 0xED always ends
in rejection, and when the continuation loop succeeds (all continuation bytes
valid and no early over-range stop) the consumed count is the full sequence
length, via the overlong check. -/
theorem next_seq_overlong56 (num_bytes leading_byte cp0 : Nat)
    (d1 : UTF8Decoder) (hnb : num_bytes = 5 ∨ num_bytes = 6)
    (hned : leading_byte ≠ 0xed) :
    (∃ n d2, UTF8Decoder.next_seq num_bytes leading_byte cp0 d1 = .err n d2) ∧
    (∀ cp1 d2,
      UTF8Decoder.read_continuations num_bytes (num_bytes - 1) cp0 d1 = .ok cp1 d2 →
      UTF8Decoder.next_seq num_bytes leading_byte cp0 d1 = .err num_bytes d2) := by
  have h4 : 4 ≤ num_bytes := by omega
  have hbr : 1 ≤ num_bytes - 1 := by omega
  have key : ∀ cp1 d2,
      UTF8Decoder.read_continuations num_bytes (num_bytes - 1) cp0 d1 = .ok cp1 d2 →
      UTF8Decoder.next_seq num_bytes leading_byte cp0 d1 = .err num_bytes d2 := by
    intro cp1 d2 hc
    have hmax : cp1 ≤ MAX_CODEPOINT :=
      read_continuations_ok_le_max num_bytes h4 (num_bytes - 1) _ _ _ _ hbr hc
    unfold UTF8Decoder.next_seq
    rw [if_neg hned]
    simp only [hc]
    unfold UTF8Decoder.finish
    rw [if_pos]
    rcases hnb with h5 | h6
    · subst h5
      refine Or.inr (Or.inr (Or.inr (Or.inl ⟨rfl, ?_⟩)))
      unfold MAX_CODEPOINT at hmax
      omega
    · subst h6
      refine Or.inr (Or.inr (Or.inr (Or.inr ⟨rfl, ?_⟩)))
      unfold MAX_CODEPOINT at hmax
      omega
  constructor
  · rcases hc : UTF8Decoder.read_continuations num_bytes (num_bytes - 1) cp0 d1
      with ⟨cp1, d2⟩ | ⟨n, d2⟩ | _
    · exact ⟨num_bytes, d2, key cp1 d2 hc⟩
    · refine ⟨n, d2, ?_⟩
      unfold UTF8Decoder.next_seq
      rw [if_neg hned]
      simp only [hc]
    · exact absurd hc (read_continuations_no_assert _ _ _ _)
  · exact key

/-- C6 (amended): a leading byte matching `111110xx` (resp. `1111110x`) is
classified as a five-byte (resp. six-byte) sequence and its continuation
bytes are read, and such a sequence never yields a scalar — `next_raw` always
reports an error; moreover when the continuation loop completes (all
continuation bytes valid and the accumulated codepoint never exceeding
0x10FFFF before the final byte) the full byte count 5 (resp. 6) is consumed,
via the overlong check.  When the accumulated codepoint exceeds 0x10FFFF
mid-sequence the in-loop range check stops earlier with a smaller consumed
count (see the counterexample). -/
theorem claim_C6 (d : UTF8Decoder) (l : Nat) (d1 : UTF8Decoder)
    (h : d.read_one = .ok l d1) :
    (l &&& 0b11111100 = 0b11111000 →
      (∃ n d2, d.next_raw = .err n d2) ∧
      (∀ cp1 d2,
        UTF8Decoder.read_continuations 5 4 ((l &&& 0b00000011) <<< 24) d1 = .ok cp1 d2 →
        d.next_raw = .err 5 d2)) ∧
    (l &&& 0b11111110 = 0b11111100 →
      (∃ n d2, d.next_raw = .err n d2) ∧
      (∀ cp1 d2,
        UTF8Decoder.read_continuations 6 5 ((l &&& 0b00000001) <<< 30) d1 = .ok cp1 d2 →
        d.next_raw = .err 6 d2)) := by
  constructor
  · intro hp5
    have hned : l ≠ 0xed := by
      intro hh
      rw [hh] at hp5
      exact absurd hp5 (by decide)
    have c1 : l &&& 0b10000000 = 0b10000000 :=
      and_mask_eq l 0b11111100 0b10000000 0b11111000 0b10000000 hp5
        (by decide) (by decide)
    have c2 : l &&& 0b11100000 = 0b11100000 :=
      and_mask_eq l 0b11111100 0b11100000 0b11111000 0b11100000 hp5
        (by decide) (by decide)
    have c3 : l &&& 0b11110000 = 0b11110000 :=
      and_mask_eq l 0b11111100 0b11110000 0b11111000 0b11110000 hp5
        (by decide) (by decide)
    have c4 : l &&& 0b11111000 = 0b11111000 :=
      and_mask_eq l 0b11111100 0b11111000 0b11111000 0b11111000 hp5
        (by decide) (by decide)
    have hraw : d.next_raw =
        UTF8Decoder.next_seq 5 l ((l &&& 0b00000011) <<< 24) d1 := by
      unfold UTF8Decoder.next_raw
      simp only [h]
      rw [if_neg (by simp [c1]), if_neg (by simp [c2]), if_neg (by simp [c3]),
        if_neg (by simp [c4]), if_pos hp5]
    rw [hraw]
    exact next_seq_overlong56 5 l _ d1 (Or.inl rfl) hned
  · intro hp6
    have hned : l ≠ 0xed := by
      intro hh
      rw [hh] at hp6
      exact absurd hp6 (by decide)
    have c1 : l &&& 0b10000000 = 0b10000000 :=
      and_mask_eq l 0b11111110 0b10000000 0b11111100 0b10000000 hp6
        (by decide) (by decide)
    have c2 : l &&& 0b11100000 = 0b11100000 :=
      and_mask_eq l 0b11111110 0b11100000 0b11111100 0b11100000 hp6
        (by decide) (by decide)
    have c3 : l &&& 0b11110000 = 0b11110000 :=
      and_mask_eq l 0b11111110 0b11110000 0b11111100 0b11110000 hp6
        (by decide) (by decide)
    have c4 : l &&& 0b11111000 = 0b11111000 :=
      and_mask_eq l 0b11111110 0b11111000 0b11111100 0b11111000 hp6
        (by decide) (by decide)
    have c5 : l &&& 0b11111100 = 0b11111100 :=
      and_mask_eq l 0b11111110 0b11111100 0b11111100 0b11111100 hp6
        (by decide) (by decide)
    have hraw : d.next_raw =
        UTF8Decoder.next_seq 6 l ((l &&& 0b00000001) <<< 30) d1 := by
      unfold UTF8Decoder.next_raw
      simp only [h]
      rw [if_neg (by simp [c1]), if_neg (by simp [c2]), if_neg (by simp [c3]),
        if_neg (by simp [c4]), if_neg (by simp [c5]), if_pos hp6]
    rw [hraw]
    exact next_seq_overlong56 6 l _ d1 (Or.inr rfl) hned

/-- Counterexample to C6 as stated: in `F8 BF 80 80 80` every continuation
byte is a valid continuation byte, yet only 2 bytes are consumed, because
folding 0xBF already pushes the accumulated codepoint past 0x10FFFF and the
in-loop range check stops the sequence early. -/
theorem claim_C6_counterexample :
    UTF8Decoder.next_raw (mkDecoder [0xf8, 0xbf, 0x80, 0x80, 0x80] STRICT true) =
      .err 2
        { stream := [0x80, 0x80, 0x80], errors := STRICT,
          disallow_nonchars := true, byte_num := 2,
          num_pending_replacement := 0, stuffed_byte := none } ∧
    0xbf &&& 0b11000000 = 0b10000000 ∧ 0x80 &&& 0b11000000 = 0b10000000 ∧
    (2 : Nat) ≠ 5 := by
  exact ⟨by decide, by decide, by decide, by decide⟩

/-- Witness for C6 at a concrete input: `F8 80 80 80 80` is rejected with the
full five bytes consumed. -/
theorem claim_C6_witness :
    UTF8Decoder.next_raw (mkDecoder [0xf8, 0x80, 0x80, 0x80, 0x80] STRICT true) =
      .err 5
        { stream := [], errors := STRICT, disallow_nonchars := true,
          byte_num := 5, num_pending_replacement := 0, stuffed_byte := none } :=
  ((claim_C6 (mkDecoder [0xf8, 0x80, 0x80, 0x80, 0x80] STRICT true) 0xf8
      { stream := [0x80, 0x80, 0x80, 0x80], errors := STRICT,
        disallow_nonchars := true, byte_num := 1,
        num_pending_replacement := 0, stuffed_byte := none }
      (by decide)).1 (by decide)).2 0
    { stream := [], errors := STRICT, disallow_nonchars := true,
      byte_num := 5, num_pending_replacement := 0, stuffed_byte := none }
    (by decide)

/-- C8 (amended): `read n` agrees with the spec's "pull n times and join,
failing as a single pull fails" operation except when end of stream occurs
mid-`read`: decode errors propagate identically, but the `StopIteration` of
an individual pull surfaces out of `read` as a `RuntimeError`, because a
`StopIteration` raised inside the generator expression of line 182 is
converted by the language (PEP 479). -/
theorem claim_C8 (d : UTF8Decoder) (n : Nat) :
    d.read n = d.read_spec n ∨
    ∃ d1, d.read_spec n = .stopIteration d1 ∧ d.read n = .runtimeError d1 := by
  induction n generalizing d with
  | zero => exact Or.inl rfl
  | succ n ih =>
    rw [UTF8Decoder.read, UTF8Decoder.read_spec]
    rcases hnext : d.next with ⟨c, d1⟩ | ⟨d1⟩ | p | _ | _ | _
    · simp only [hnext]
      rcases ih d1 with heq | ⟨d2, hs, hr⟩
      · rw [heq]
        exact Or.inl rfl
      · rw [hs, hr]
        exact Or.inr ⟨d2, rfl, rfl⟩
    · simp only [hnext]
      exact Or.inr ⟨d1, rfl, rfl⟩
    · simp only [hnext]
      exact Or.inl trivial
    · simp only [hnext]
      exact Or.inl trivial
    · simp only [hnext]
      exact Or.inl trivial
    · simp only [hnext]
      exact Or.inl trivial

/-- Counterexample to C8 as stated: on the empty stream, one `next()` signals
end of stream (`StopIteration`), but `read 1` raises `RuntimeError` instead
of signalling end of stream the way `next()` does. -/
theorem claim_C8_counterexample :
    UTF8Decoder.read (mkDecoder [] STRICT true) 1 ≠
      UTF8Decoder.read_spec (mkDecoder [] STRICT true) 1 ∧
    UTF8Decoder.read (mkDecoder [] STRICT true) 1 =
      .runtimeError
        { stream := [], errors := STRICT, disallow_nonchars := true,
          byte_num := 1, num_pending_replacement := 0, stuffed_byte := none } ∧
    UTF8Decoder.read_spec (mkDecoder [] STRICT true) 1 =
      .stopIteration
        { stream := [], errors := STRICT, disallow_nonchars := true,
          byte_num := 1, num_pending_replacement := 0, stuffed_byte := none } := by
  exact ⟨by decide, by decide, by decide⟩

/-- Witness for C8 at a concrete input: on `41 42` with `n = 2` the two
operations agree (left disjunct). -/
theorem claim_C8_witness :
    UTF8Decoder.read (mkDecoder [0x41, 0x42] STRICT true) 2 =
      UTF8Decoder.read_spec (mkDecoder [0x41, 0x42] STRICT true) 2 ∨
    ∃ d1, UTF8Decoder.read_spec (mkDecoder [0x41, 0x42] STRICT true) 2 =
        .stopIteration d1 ∧
      UTF8Decoder.read (mkDecoder [0x41, 0x42] STRICT true) 2 =
        .runtimeError d1 :=
  claim_C8 (mkDecoder [0x41, 0x42] STRICT true) 2

/-- A `next` call with no pending replacement whose raw decode succeeds
returns that scalar unchanged, under every policy. -/
theorem next_of_raw_chr (d : UTF8Decoder) (c : Nat) (d1 : UTF8Decoder)
    (hp : d.num_pending_replacement = 0) (h : d.next_raw = .chr c d1) :
    d.next = .chr c d1 := by
  rw [UTF8Decoder.next, UTF8Decoder.next_fuel, if_neg (by omega)]
  simp only [h]

/-- Bit facts about a canonical two-byte leading byte `0xC0 ||| q`. -/
theorem leading2_facts : ∀ q : Nat, q < 32 →
    ¬((0xc0 ||| q) &&& 0b10000000 = 0) ∧
    (0xc0 ||| q) &&& 0b11100000 = 0b11000000 ∧
    (0xc0 ||| q) &&& 0b00011111 = q ∧
    (0xc0 ||| q) ≠ 0xed ∧ (0xc0 ||| q) ≠ 0xe0 ∧ (0xc0 ||| q) ≠ 0xf0 := by
  decide

/-- Bit facts about a canonical three-byte leading byte `0xE0 ||| p`. -/
theorem leading3_facts : ∀ p : Nat, p < 16 →
    ¬((0xe0 ||| p) &&& 0b10000000 = 0) ∧
    ¬((0xe0 ||| p) &&& 0b11100000 = 0b11000000) ∧
    (0xe0 ||| p) &&& 0b11110000 = 0b11100000 ∧
    (0xe0 ||| p) &&& 0b00001111 = p ∧
    ((0xe0 ||| p) = 0xed ↔ p = 13) ∧
    ((0xe0 ||| p) = 0xe0 ↔ p = 0) ∧ (0xe0 ||| p) ≠ 0xf0 := by
  decide

/-- Bit facts about a canonical continuation byte `0x80 ||| r`. -/
theorem continuation_facts : ∀ r : Nat, r < 64 →
    (0x80 ||| r) &&& 0b11000000 = 0b10000000 ∧
    (0x80 ||| r) &&& 0b00111111 = r := by
  decide

/-- Splitting a value below 0x800 at bit 6 and oring the parts back is the
identity. -/
theorem reconstruct2 (v : Nat) :
    ((v >>> 6) <<< 6) ||| (v &&& 0x3f) = v := by
  have hmod : v &&& 0x3f = v % 64 := by
    have h63 : (0x3f : Nat) = 2 ^ 6 - 1 := by norm_num
    rw [h63, Nat.and_pow_two_sub_one_eq_mod]
  have hdiv : v >>> 6 = v / 64 := by
    rw [Nat.shiftRight_eq_div_pow]
  have hshl : (v / 64) <<< 6 = v / 64 * 64 := by
    rw [Nat.shiftLeft_eq]
  rw [hdiv, hmod, hshl]
  rw [lor_disjoint (v / 64 * 64) (v % 64) 6
    (Nat.mul_mod_left (v / 64) 64)
    (show v % 64 < 64 from Nat.mod_lt v (by norm_num))]
  omega

/-- Splitting a value below 0x10000 at bits 12 and 6 and oring the parts back
in the decoder's fold order is the identity. -/
theorem reconstruct3 (v : Nat) :
    (((v >>> 12) <<< 12) ||| (((v >>> 6) &&& 0x3f) <<< 6)) ||| (v &&& 0x3f)
      = v := by
  have hmod : v &&& 0x3f = v % 64 := by
    have h63 : (0x3f : Nat) = 2 ^ 6 - 1 := by norm_num
    rw [h63, Nat.and_pow_two_sub_one_eq_mod]
  have hmid : (v >>> 6) &&& 0x3f = v / 64 % 64 := by
    have h63 : (0x3f : Nat) = 2 ^ 6 - 1 := by norm_num
    rw [h63, Nat.and_pow_two_sub_one_eq_mod, Nat.shiftRight_eq_div_pow]
  have hdiv : v >>> 12 = v / 4096 := by
    rw [Nat.shiftRight_eq_div_pow]
  have hshl12 : (v / 4096) <<< 12 = v / 4096 * 4096 := by
    rw [Nat.shiftLeft_eq]
  have hshl6 : (v / 64 % 64) <<< 6 = v / 64 % 64 * 64 := by
    rw [Nat.shiftLeft_eq]
  rw [hdiv, hmod, hmid, hshl12, hshl6]
  rw [lor_disjoint (v / 4096 * 4096) (v / 64 % 64 * 64) 12
    (Nat.mul_mod_left (v / 4096) 4096)
    (show v / 64 % 64 * 64 < 4096 by
      have hb := Nat.mod_lt (v / 64) (show 0 < 64 by norm_num)
      omega)]
  rw [lor_disjoint (v / 4096 * 4096 + v / 64 % 64 * 64) (v % 64) 6
    (show (v / 4096 * 4096 + v / 64 % 64 * 64) % 64 = 0 by omega)
    (show v % 64 < 64 from Nat.mod_lt v (by norm_num))]
  omega

/-- Decoding the canonical two-byte encoding `C0|q 80|r` yields `(q<<<6)|||r`
whenever that value is not overlong, consuming both bytes, under every
policy. -/
theorem decode2 (q r pol : Nat) (hq : q < 32) (hr : r < 64)
    (hov : 0x80 ≤ (q <<< 6) ||| r) :
    UTF8Decoder.next (mkDecoder [0xc0 ||| q, 0x80 ||| r] pol true) =
      .chr ((q <<< 6) ||| r)
        { stream := [], errors := pol, disallow_nonchars := true,
          byte_num := 2, num_pending_replacement := 0, stuffed_byte := none } := by
  obtain ⟨f1, f2, f3, f4, f5, f6⟩ := leading2_facts q hq
  obtain ⟨g1, g2⟩ := continuation_facts r hr
  have hval : (q <<< 6) ||| r < 0x800 := by
    have h1 : q <<< 6 = q * 64 := Nat.shiftLeft_eq q 6
    have h2 : (q <<< 6) ||| r = q * 64 + r := by
      rw [h1]
      exact lor_disjoint _ _ 6 (Nat.mul_mod_left q 64) hr
    omega
  apply next_of_raw_chr _ _ _ rfl
  have hro : (mkDecoder [0xc0 ||| q, 0x80 ||| r] pol true).read_one
      = .ok (0xc0 ||| q)
          { stream := [0x80 ||| r], errors := pol, disallow_nonchars := true,
            byte_num := 1, num_pending_replacement := 0,
            stuffed_byte := none } := rfl
  have hro2 : UTF8Decoder.read_one
      { stream := [0x80 ||| r], errors := pol, disallow_nonchars := true,
        byte_num := 1, num_pending_replacement := 0, stuffed_byte := none }
      = .ok (0x80 ||| r)
          { stream := [], errors := pol, disallow_nonchars := true,
            byte_num := 2, num_pending_replacement := 0,
            stuffed_byte := none } := rfl
  have hloop : UTF8Decoder.read_continuations 2 1 (q <<< 6)
      { stream := [0x80 ||| r], errors := pol, disallow_nonchars := true,
        byte_num := 1, num_pending_replacement := 0, stuffed_byte := none }
      = .ok ((q <<< 6) ||| r)
          { stream := [], errors := pol, disallow_nonchars := true,
            byte_num := 2, num_pending_replacement := 0,
            stuffed_byte := none } := by
    rw [UTF8Decoder.read_continuations]
    simp only [hro2]
    rw [if_neg (by simp [g1])]
    simp only [g2, Nat.zero_mul, Nat.shiftLeft_zero]
    rw [if_neg (by rintro ⟨h4, -⟩; omega)]
    rw [UTF8Decoder.read_continuations]
  unfold UTF8Decoder.next_raw
  simp only [hro]
  rw [if_neg f1, if_pos f2, f3]
  unfold UTF8Decoder.next_seq
  rw [if_neg f4]
  simp only [hloop]
  unfold UTF8Decoder.finish
  rw [if_neg (by rintro (⟨-, h⟩ | ⟨h, -⟩ | ⟨h, -⟩ | ⟨h, -⟩ | ⟨h, -⟩) <;> omega)]
  rw [if_neg (by rintro (⟨h, -⟩ | ⟨h, -⟩) <;> exact absurd h (by assumption))]
  rw [if_neg (by rintro ⟨-, h | ⟨h, -⟩⟩ <;> omega)]

/-- Decoding the canonical three-byte encoding `E0|p 80|m 80|r` yields
`((p<<<12)|||(m<<<6))|||r` whenever that value is not overlong, not led by
0xED, and passes the default noncharacter check, consuming all three bytes,
under every policy. -/
theorem decode3 (p m r pol : Nat) (hp : p < 16) (hm : m < 64) (hr : r < 64)
    (hov : 0x800 ≤ ((p <<< 12) ||| (m <<< 6)) ||| r)
    (hned : p ≠ 13)
    (hlt : ((p <<< 12) ||| (m <<< 6)) ||| r < 0xfffe)
    (hnc : ¬(0xfdd0 ≤ ((p <<< 12) ||| (m <<< 6)) ||| r
          ∧ ((p <<< 12) ||| (m <<< 6)) ||| r ≤ 0xfdef)) :
    UTF8Decoder.next (mkDecoder [0xe0 ||| p, 0x80 ||| m, 0x80 ||| r] pol true) =
      .chr (((p <<< 12) ||| (m <<< 6)) ||| r)
        { stream := [], errors := pol, disallow_nonchars := true,
          byte_num := 3, num_pending_replacement := 0, stuffed_byte := none } := by
  obtain ⟨f1, f2, f3, f4, f5, f6, f7⟩ := leading3_facts p hp
  obtain ⟨g1m, g2m⟩ := continuation_facts m hm
  obtain ⟨g1r, g2r⟩ := continuation_facts r hr
  apply next_of_raw_chr _ _ _ rfl
  have hro : (mkDecoder [0xe0 ||| p, 0x80 ||| m, 0x80 ||| r] pol true).read_one
      = .ok (0xe0 ||| p)
          { stream := [0x80 ||| m, 0x80 ||| r], errors := pol,
            disallow_nonchars := true, byte_num := 1,
            num_pending_replacement := 0, stuffed_byte := none } := rfl
  have hro2 : UTF8Decoder.read_one
      { stream := [0x80 ||| m, 0x80 ||| r], errors := pol,
        disallow_nonchars := true, byte_num := 1, num_pending_replacement := 0,
        stuffed_byte := none }
      = .ok (0x80 ||| m)
          { stream := [0x80 ||| r], errors := pol, disallow_nonchars := true,
            byte_num := 2, num_pending_replacement := 0,
            stuffed_byte := none } := rfl
  have hro3 : UTF8Decoder.read_one
      { stream := [0x80 ||| r], errors := pol, disallow_nonchars := true,
        byte_num := 2, num_pending_replacement := 0, stuffed_byte := none }
      = .ok (0x80 ||| r)
          { stream := [], errors := pol, disallow_nonchars := true,
            byte_num := 3, num_pending_replacement := 0,
            stuffed_byte := none } := rfl
  have hloop : UTF8Decoder.read_continuations 3 2 (p <<< 12)
      { stream := [0x80 ||| m, 0x80 ||| r], errors := pol,
        disallow_nonchars := true, byte_num := 1, num_pending_replacement := 0,
        stuffed_byte := none }
      = .ok (((p <<< 12) ||| (m <<< 6)) ||| r)
          { stream := [], errors := pol, disallow_nonchars := true,
            byte_num := 3, num_pending_replacement := 0,
            stuffed_byte := none } := by
    rw [UTF8Decoder.read_continuations]
    simp only [hro2]
    rw [if_neg (by simp [g1m])]
    simp only [g2m, Nat.one_mul]
    rw [if_neg (by rintro ⟨h4, -⟩; omega)]
    rw [UTF8Decoder.read_continuations]
    simp only [hro3]
    rw [if_neg (by simp [g1r])]
    simp only [g2r, Nat.zero_mul, Nat.shiftLeft_zero]
    rw [if_neg (by rintro ⟨h4, -⟩; omega)]
    rw [UTF8Decoder.read_continuations]
  unfold UTF8Decoder.next_raw
  simp only [hro]
  rw [if_neg f1, if_neg f2, if_pos f3, f4]
  unfold UTF8Decoder.next_seq
  rw [if_neg (fun hh => hned (f5.mp hh))]
  simp only [hloop]
  unfold UTF8Decoder.finish
  rw [if_neg (by rintro (⟨h, -⟩ | ⟨-, h⟩ | ⟨h, -⟩ | ⟨h, -⟩ | ⟨h, -⟩) <;> omega)]
  rw [if_neg (by
    rintro (⟨-, h⟩ | ⟨h, -⟩) <;> first | omega | exact absurd h f7)]
  rw [if_neg (by
    rintro ⟨-, h | hpair⟩ <;> first | omega | exact hnc hpair)]

/-- C1 (amended): for every scalar `v` below 0xFFFE that is outside
[0xD000, 0xDFFF] and outside [0xFDD0, 0xFDEF], decoding the canonical UTF-8
encoding of `v` with a decoder built with the default
`disallow_nonchars = true`, under every error policy, yields exactly `v` and
consumes exactly the canonical number of bytes.  The excluded values are
rejected by the decoder: the whole leading byte 0xED (covering the valid
scalars [0xD000, 0xD7FF] along with the surrogates) and, under the default
noncharacter policy, every codepoint ≥ 0xFFFE and the range
[0xFDD0, 0xFDEF]. -/
theorem claim_C1 (v pol : Nat)
    (hlt : v < 0xfffe)
    (hsur : ¬(0xd000 ≤ v ∧ v ≤ 0xdfff))
    (hnc : ¬(0xfdd0 ≤ v ∧ v ≤ 0xfdef)) :
    UTF8Decoder.next (mkDecoder (encode_utf8 v) pol true) =
      .chr v
        { stream := [], errors := pol, disallow_nonchars := true,
          byte_num := (encode_utf8 v).length, num_pending_replacement := 0,
          stuffed_byte := none } := by
  rcases Nat.lt_or_ge v 0x80 with h80 | h80
  · have henc : encode_utf8 v = [v] := by
      unfold encode_utf8
      rw [if_pos h80]
    rw [henc]
    have h1 : v &&& 0b10000000 = 0 := by
      have hdec : ∀ x : Nat, x < 128 → x &&& 0b10000000 = 0 := by decide
      exact hdec v h80
    apply next_of_raw_chr _ _ _ rfl
    have hro : (mkDecoder [v] pol true).read_one
        = .ok v
            { stream := [], errors := pol, disallow_nonchars := true,
              byte_num := 1, num_pending_replacement := 0,
              stuffed_byte := none } := rfl
    unfold UTF8Decoder.next_raw
    simp only [hro]
    rw [if_pos h1]
    rfl
  · rcases Nat.lt_or_ge v 0x800 with h800 | h800
    · have henc : encode_utf8 v = [0xc0 ||| (v >>> 6), 0x80 ||| (v &&& 0x3f)] := by
        unfold encode_utf8
        rw [if_neg (by omega), if_pos h800]
      rw [henc]
      have hd6 : v >>> 6 = v / 64 := by
        rw [Nat.shiftRight_eq_div_pow]
      have hq : v >>> 6 < 32 := by
        rw [hd6]
        omega
      have hr : v &&& 0x3f < 64 := by
        have hle := @Nat.and_le_right v 0x3f
        omega
      have hrec : ((v >>> 6) <<< 6) ||| (v &&& 0x3f) = v := reconstruct2 v
      have hres := decode2 (v >>> 6) (v &&& 0x3f) pol hq hr
        (by rw [hrec]; exact h80)
      rw [hrec] at hres
      rw [hres]
      rfl
    · have henc : encode_utf8 v =
          [0xe0 ||| (v >>> 12), 0x80 ||| ((v >>> 6) &&& 0x3f),
           0x80 ||| (v &&& 0x3f)] := by
        unfold encode_utf8
        rw [if_neg (by omega), if_neg (by omega), if_pos (by omega)]
      rw [henc]
      have hd12 : v >>> 12 = v / 4096 := by
        rw [Nat.shiftRight_eq_div_pow]
      have hp : v >>> 12 < 16 := by
        rw [hd12]
        omega
      have hm : (v >>> 6) &&& 0x3f < 64 := by
        have hle := @Nat.and_le_right (v >>> 6) 0x3f
        omega
      have hr : v &&& 0x3f < 64 := by
        have hle := @Nat.and_le_right v 0x3f
        omega
      have hrec := reconstruct3 v
      have hned : v >>> 12 ≠ 13 := by
        rw [hd12]
        intro hh
        exact hsur ⟨by omega, by omega⟩
      have hres := decode3 (v >>> 12) ((v >>> 6) &&& 0x3f) (v &&& 0x3f) pol
        hp hm hr (by rw [hrec]; omega) hned (by rw [hrec]; omega)
        (by rw [hrec]; exact hnc)
      rw [hrec] at hres
      rw [hres]
      rfl

/-- Counterexample to C1 as stated: U+D000 is a Unicode scalar outside the
surrogate range, yet decoding its canonical encoding `ED 80 80` with default
parameters fails at once — the decoder rejects every sequence led by 0xED,
not only the surrogate ones. -/
theorem claim_C1_counterexample :
    encode_utf8 0xd000 = [0xed, 0x80, 0x80] ∧
    UTF8Decoder.next (mkDecoder (encode_utf8 0xd000) STRICT true) =
      .invalidUTF8Encoding 1 ∧
    ¬(0xd800 ≤ 0xd000 ∧ 0xd000 ≤ 0xdfff) ∧ (0xd000 : Nat) ≤ 0x10ffff := by
  exact ⟨by decide, by decide, by decide, by decide⟩

/-- Witness for C1 at a concrete input: U+263A round-trips through its
canonical three-byte encoding. -/
theorem claim_C1_witness :
    UTF8Decoder.next (mkDecoder (encode_utf8 0x263a) STRICT true) =
      .chr 0x263a
        { stream := [], errors := STRICT, disallow_nonchars := true,
          byte_num := (encode_utf8 0x263a).length,
          num_pending_replacement := 0, stuffed_byte := none } :=
  claim_C1 0x263a STRICT (by decide) (by decide) (by decide)
